import Mathlib

/-!
Verification of the accessor-method generator in `src/wrapper.rs`
(`nrc/protobuf-build`). The Rust source is shallowly embedded below:
attributes and parsed meta items become flat inductive types (only the
level of nesting the generator actually inspects is modelled), the field
classifier `FieldKind::from_attrs` and the method synthesizer
`FieldKind::methods` become `Except`-valued functions where `Except.error`
models a Rust panic (`unreachable!`, failed `assert!`, out-of-bounds
index), and the text-emitting functions (`write_methods`, `generate_one`,
`generate_from_items`) become functions that thread the output buffer as
an explicit `String`. Template strings are transcribed byte-for-byte from
the `format!`/`write!` calls in the source (braces written as `\x7b`,
`\x7d`). For claims about the behaviour of the *generated* Rust methods,
small semantic models of the fixed templates are defined and proved.
-/

namespace Wrapper

/-- One nested item of a parsed `#[prost(...)]` meta list
(`syn::NestedMeta`), flattened to the shapes `from_attrs` inspects:
`Meta::Word`, `Meta::NameValue` (the literal kept as its token text,
quotes included), a nested `Meta::List` (never recognized), or a bare
literal (never recognized). -/
inductive NestedMeta where
  | word (id : String)
  | nameValue (ident : String) (lit : String)
  | metaList
  | literal
deriving DecidableEq, Repr

/-- The result of `Attribute::parse_meta` when it succeeds (`syn::Meta`),
at the depth `from_attrs` inspects: only `Meta::List` carries content the
classifier looks at. -/
inductive ParsedMeta where
  | word (id : String)
  | nameValue (ident : String) (lit : String)
  | list (nested : List NestedMeta)
deriving DecidableEq, Repr

/-- `syn::Attribute`, restricted to what `wrapper.rs` reads: the path
(as the identifier `is_ident` compares against), the raw token text
`tts` (used by `is_message`), and the result of `parse_meta` (`none`
models `Err`). -/
structure Attribute where
  path : String
  tts : String
  parse_meta : Option ParsedMeta
deriving DecidableEq, Repr

/-- A generic argument (`syn::GenericArgument`). The code only ever uses
the token text of a `Type` argument (`ty.clone().into_token_stream()
.to_string()`, wrapper.rs:183), so that rendered text is what is stored. -/
inductive GenericArgument where
  | type (tokens : String)
  | other
deriving DecidableEq, Repr

/-- `PathArguments` of the last path segment, as matched at
`wrapper.rs:180-188`. -/
inductive PathArguments where
  | noArgs
  | angleBracketed (args : List GenericArgument)
  | parenthesized
deriving DecidableEq, Repr

/-- One segment of a type path (`syn::PathSegment`). -/
structure PathSegment where
  ident : String
  arguments : PathArguments
deriving DecidableEq, Repr

/-- A field's declared type (`syn::Type`), restricted to what
`wrapper.rs` inspects: either a path type with its segments, or any
other type shape. `tokens` is the type's rendered token text
(`into_token_stream().to_string()`), which is data of the parsed tree,
not recomputed here. -/
inductive RsType where
  | path (segments : List PathSegment) (tokens : String)
  | other (tokens : String)
deriving DecidableEq, Repr

/-- The rendered token text of a type, `ty.into_token_stream().to_string()`. -/
def RsType.tokens : RsType → String
  | .path _ tk => tk
  | .other tk => tk

/-- A named or unnamed struct field (`syn::Field`), restricted to what
`generate_one` reads. -/
structure Field where
  ident : Option String
  ty : RsType
  attrs : List Attribute
deriving DecidableEq, Repr

/-- `syn::ItemStruct`, restricted to what the generator reads. -/
structure ItemStruct where
  ident : String
  attrs : List Attribute
  fields : List Field
deriving DecidableEq, Repr

/-- `syn::Item`, restricted to the alternatives `generate_from_items`
distinguishes: a struct, a module (with optional content), or anything
else (skipped). -/
inductive Item where
  | structItem (s : ItemStruct)
  | modItem (ident : String) (content : Option (List Item))
  | otherItem

/-- `INT_TYPES` (wrapper.rs:106). -/
def INT_TYPES : List String := ["int32", "int64", "uint32", "uint64"]

/-- `FieldKind` (wrapper.rs:108-119), with the variants in declaration
order; the derived Rust `Ord` instance is modelled by `FieldKind.fkleb`
below. -/
inductive FieldKind where
  | optional
  | repeated
  | int
  | bool
  | bytes
  | string
  | oneOf (name : String)
  | enumeration (typeName : String)
deriving DecidableEq, Repr

/-- The variant discriminant of a `FieldKind`, in declaration order
(Rust's derived `Ord` compares discriminants first). -/
def FieldKind.discr : FieldKind → Nat
  | .optional => 0
  | .repeated => 1
  | .int => 2
  | .bool => 3
  | .bytes => 4
  | .string => 5
  | .oneOf _ => 6
  | .enumeration _ => 7

/-- The payload of a `FieldKind` (empty for payload-free variants);
Rust's derived `Ord` compares payloads when discriminants tie. -/
def FieldKind.payload : FieldKind → String
  | .oneOf s => s
  | .enumeration s => s
  | _ => ""

/-- Boolean `≤` of the Rust `#[derive(Ord)]` on `FieldKind`: compare
variant discriminants; on a tie, compare the `String` payload
(UTF-8 byte order, which coincides with Lean's code-point order). -/
def FieldKind.fkleb (a b : FieldKind) : Bool :=
  match a, b with
  | .oneOf s, .oneOf t => decide (s ≤ t)
  | .enumeration s, .enumeration t => decide (s ≤ t)
  | a, b => decide (a.discr ≤ b.discr)

/-- The `≤` relation of the derived `Ord`, as a proposition. -/
def FieldKind.fkle (a b : FieldKind) : Prop := FieldKind.fkleb a b = true

instance : DecidableRel FieldKind.fkle :=
  fun a b => inferInstanceAs (Decidable (FieldKind.fkleb a b = true))

theorem FieldKind.fkle_iff (a b : FieldKind) :
    FieldKind.fkle a b ↔
      (a.discr < b.discr ∨ (a.discr = b.discr ∧ a.payload ≤ b.payload)) := by
  cases a <;> cases b <;>
    simp [FieldKind.fkle, FieldKind.fkleb, FieldKind.discr, FieldKind.payload]

instance : IsTrans FieldKind FieldKind.fkle := by
  constructor
  intro a b c hab hbc
  rw [FieldKind.fkle_iff] at *
  rcases hab with h1 | ⟨h1, h1'⟩ <;> rcases hbc with h2 | ⟨h2, h2'⟩
  · exact Or.inl (Nat.lt_trans h1 h2)
  · exact Or.inl (h2 ▸ h1)
  · exact Or.inl (h1 ▸ h2)
  · exact Or.inr ⟨h1.trans h2, le_trans h1' h2'⟩

instance : IsTotal FieldKind FieldKind.fkle := by
  constructor
  intro a b
  rw [FieldKind.fkle_iff, FieldKind.fkle_iff]
  rcases Nat.lt_trichotomy a.discr b.discr with h | h | h
  · exact Or.inl (Or.inl h)
  · rcases le_total a.payload b.payload with hp | hp
    · exact Or.inl (Or.inr ⟨h, hp⟩)
    · exact Or.inr (Or.inr ⟨h.symm, hp⟩)
  · exact Or.inr (Or.inl h)

theorem FieldKind.fkle_refl (a : FieldKind) : FieldKind.fkle a a := by
  rw [FieldKind.fkle_iff]
  exact Or.inr ⟨rfl, le_refl _⟩

/-- `value[1..value.len() - 1]`, the quote-trimming at wrapper.rs:148-149.
The Rust byte slice panics whenever the literal token text is shorter
than two bytes (`value.len() - 1` underflows at length 0; `value[1..0]`
is a reversed range at length 1), and this happens for every name-value
item before the ident is even compared; `Except.error` models that
panic. On longer texts the trim is modelled character-based: the token
texts in question start and end with a single-byte character (a quote,
digit or letter), so byte slicing and character slicing agree. -/
def trimQuotes (s : String) : Except String String :=
  if s.data.length < 2 then Except.error "byte index out of bounds"
  else Except.ok (String.mk ((s.data.drop 1).dropLast))

/-- The closure of the `filter_map` at wrapper.rs:129-160: recognize one
nested meta item as a candidate `FieldKind` (`Except.ok none` when the
item is not recognized). For a name-value item the wrapper.rs:149 slice
runs before the ident check, so a too-short literal token text panics
(`Except.error`) whatever the ident is. -/
def recognize : NestedMeta → Except String (Option FieldKind)
  | .word id =>
    Except.ok (
      if id = "optional" then some .optional
      else if id = "repeated" then some .repeated
      else if id = "bytes" then some .bytes
      else if id = "string" then some .string
      else if id = "bool" then some .bool
      else if INT_TYPES.contains id then some .int
      else none)
  | .nameValue ident lit =>
    match trimQuotes lit with
    | Except.error e => Except.error e
    | Except.ok value =>
      Except.ok (
        if ident = "enumeration" then some (.enumeration value)
        else if ident = "oneof" then some (.oneOf value)
        else none)
  | .metaList => Except.ok none
  | .literal => Except.ok none

/-- Draining the `filter_map` iterator with `collect` (wrapper.rs:126-161):
the closure runs on every nested item left to right, a panic in the
closure aborting the collection. -/
def collectKinds : List NestedMeta → Except String (List FieldKind)
  | [] => Except.ok []
  | item :: rest =>
    match recognize item with
    | Except.error e => Except.error e
    | Except.ok none => collectKinds rest
    | Except.ok (some k) =>
      match collectKinds rest with
      | Except.error e => Except.error e
      | Except.ok ks => Except.ok (k :: ks)

/-- `FieldKind::from_attrs` (wrapper.rs:122-170). The loop over the
attributes: a `prost` attribute whose meta parses as a list has its
candidates collected (a slice panic during collection aborts the run);
a non-empty collection returns the least candidate (`sort()` then first
element); an empty collection or a non-list meta lets the loop continue,
and falling off the end is the `unreachable!("Unknown field kind")`
panic, modelled as `Except.error`. -/
def FieldKind.from_attrs : List Attribute → Except String FieldKind
  | [] => .error "Unknown field kind"
  | a :: rest =>
    if a.path = "prost" then
      match a.parse_meta with
      | some (ParsedMeta.list nested) =>
        match collectKinds nested with
        | Except.error e => Except.error e
        | Except.ok kinds =>
          match kinds.insertionSort FieldKind.fkle with
          | [] => FieldKind.from_attrs rest
          | k :: _ => .ok k
      | _ => FieldKind.from_attrs rest
    else FieldKind.from_attrs rest

/-- A `#[prost(...)]` attribute whose meta parses as the given list. -/
def prostAttr (nested : List NestedMeta) : Attribute :=
  { path := "prost", tts := "", parse_meta := some (ParsedMeta.list nested) }

/-- `RefType` (wrapper.rs:404-408). -/
inductive RefType where
  | copy
  | ref
  | deref (s : String)
deriving DecidableEq, Repr

/-- `MethodKind` (wrapper.rs:410-414). -/
inductive MethodKind where
  | none
  | standard
  | custom (s : String)
deriving DecidableEq, Repr

/-- `FieldMethods` (wrapper.rs:266-283). Field names follow the source
(`mt` is the mutator mode, `take` the take-expression, etc.). -/
structure FieldMethods where
  ty : String
  ref_ty : RefType
  override_ty : Option String
  name : String
  unesc_name : String
  has : Bool
  clear : Option String
  set : Option String
  get : Option String
  mt : MethodKind
  take : Option String
deriving DecidableEq, Repr

/-- `FieldMethods::new` (wrapper.rs:286-304): the defaulted descriptor,
with the raw-identifier prefix `r#` stripped for `unesc_name`. -/
def FieldMethods.new (ty : RsType) (ident : String) : FieldMethods :=
  { ty := ty.tokens
    ref_ty := RefType.ref
    override_ty := none
    name := ident
    unesc_name := if ident.startsWith "r#" then ident.drop 2 else ident
    has := false
    clear := none
    set := none
    get := none
    mt := MethodKind.none
    take := none }

/-- The type-unwrapping of the `Optional` arm of `FieldKind::methods`
(wrapper.rs:176-191): the declared type must be a path type, its last
segment's identifier must be `Option` (`assert!`), the segment must
carry angle-bracketed arguments whose first argument is a type.  Every
other shape panics (`unwrap` on an empty segment list, the `assert!`,
the `unreachable!` arms, or the out-of-bounds `args.args[0]`), modelled
as `Except.error`. -/
def unwrapOptional : RsType → Except String String
  | RsType.path segs _ =>
    match segs.getLast? with
    | none => .error "called Option::unwrap on a None value"
    | some seg =>
      if seg.ident = "Option" then
        match seg.arguments with
        | PathArguments.angleBracketed args =>
          match args.head? with
          | some (GenericArgument.type tk) => .ok tk
          | some GenericArgument.other => .error "internal error: entered unreachable code"
          | none => .error "index out of bounds"
        | _ => .error "internal error: entered unreachable code"
      else .error "assertion failed: seg.ident == Option"
  | RsType.other _ => .error "internal error: entered unreachable code"

/-- The custom mutator template of the `Optional` arm (the `format!` at
wrapper.rs:201-207), byte-for-byte including the literal's embedded
newlines and indentation. -/
def optMutTemplate (n u : String) : String :=
  "if self." ++ n ++ ".is_none() \x7b\n                        self." ++ n ++
    " = ::std::option::Option::Some(" ++ u ++
    "::default());\n                    \x7d\n                    self." ++ n ++
    ".as_mut().unwrap()"

/-- `FieldKind::methods` (wrapper.rs:172-263): build the `FieldMethods`
descriptor for a field of this kind, returning `none` for `OneOf`
(wrapper.rs:257-259) and propagating the `Optional` shape panics as
`Except.error`. Template strings are transcribed exactly from the
`format!` calls. -/
def FieldKind.methods (k : FieldKind) (ty : RsType) (ident : String) :
    Except String (Option FieldMethods) :=
  let result := FieldMethods.new ty ident
  match k with
  | FieldKind.optional =>
    match unwrapOptional ty with
    | .error e => .error e
    | .ok unwrapped_type =>
      .ok (some { result with
        override_ty := some unwrapped_type
        has := true
        clear := some "::std::option::Option::None"
        set := some "::std::option::Option::Some(v);"
        get := some ("self." ++ result.name ++ ".as_ref().unwrap_or_else(|| "
          ++ unwrapped_type ++ "::default_instance())")
        mt := MethodKind.custom (optMutTemplate result.name unwrapped_type)
        take := some ("self." ++ result.name ++ ".take().unwrap_or_else(|| "
          ++ unwrapped_type ++ "::default())") })
  | FieldKind.int =>
    .ok (some { result with ref_ty := RefType.copy, clear := some "0" })
  | FieldKind.bool =>
    .ok (some { result with ref_ty := RefType.copy, clear := some "false" })
  | FieldKind.repeated =>
    .ok (some { result with
      mt := MethodKind.standard
      take := some ("::std::mem::replace(&mut self." ++ result.name
        ++ ", ::std::vec::Vec::new())") })
  | FieldKind.bytes =>
    .ok (some { result with
      ref_ty := RefType.deref "[u8]"
      mt := MethodKind.standard
      take := some ("::std::mem::replace(&mut self." ++ result.name
        ++ ", ::std::vec::Vec::new())") })
  | FieldKind.string =>
    .ok (some { result with
      ref_ty := RefType.deref "str"
      mt := MethodKind.standard
      take := some ("::std::mem::replace(&mut self." ++ result.name
        ++ ", ::std::string::String::new())") })
  | FieldKind.enumeration enum_type =>
    .ok (some { result with
      override_ty := some enum_type
      ref_ty := RefType.copy
      clear := some "0"
      set := some ("unsafe \x7b ::std::mem::transmute::<" ++ enum_type
        ++ ", i32>(v) \x7d")
      get := some ("unsafe \x7b ::std::mem::transmute::<i32, " ++ enum_type
        ++ ">(self." ++ result.name ++ ") \x7d") })
  | FieldKind.oneOf _ => .ok none

/-- `FieldMethods::write_methods` (wrapper.rs:306-401), as the emitted
text: the methods are rendered in fixed order has / clear / set / get /
mut / take, each `writeln!` contributing its format string (braces
escaped) followed by a newline. -/
def writeMethods (m : FieldMethods) : String :=
  let ty := match m.override_ty with
    | some s => s
    | none => m.ty
  let ref_ty := match m.ref_ty with
    | RefType.copy => ty
    | RefType.ref => "&" ++ ty
    | RefType.deref s => "&" ++ s
  (if m.has then
    "pub fn has_" ++ m.unesc_name ++ "(&self) -> bool \x7b self." ++ m.name
      ++ ".is_some() \x7d\n"
   else "")
  ++ (match m.clear with
    | some s => "pub fn clear_" ++ m.unesc_name ++ "(&mut self) \x7b self."
        ++ m.name ++ " = " ++ s ++ " \x7d\n"
    | none => "pub fn clear_" ++ m.unesc_name ++ "(&mut self) \x7b self."
        ++ m.name ++ ".clear(); \x7d\n")
  ++ (match m.set with
    | some s => "pub fn set_" ++ m.unesc_name ++ "(&mut self, v: " ++ ty
        ++ ") \x7b self." ++ m.name ++ " = " ++ s ++ "; \x7d\n"
    | none => "pub fn set_" ++ m.unesc_name ++ "(&mut self, v: " ++ ty
        ++ ") \x7b self." ++ m.name ++ " = v; \x7d\n")
  ++ (match m.get with
    | some s => "pub fn get_" ++ m.unesc_name ++ "(&self) -> " ++ ref_ty
        ++ " \x7b " ++ s ++ " \x7d\n"
    | none =>
      let rf := match m.ref_ty with
        | RefType.copy => ""
        | _ => "&"
      "pub fn get_" ++ m.unesc_name ++ "(&self) -> " ++ ref_ty ++ " \x7b "
        ++ rf ++ "self." ++ m.name ++ " \x7d\n")
  ++ (match m.mt with
    | MethodKind.standard => "pub fn mut_" ++ m.unesc_name
        ++ "(&mut self) -> &mut " ++ ty ++ " \x7b &mut self." ++ m.name
        ++ " \x7d\n"
    | MethodKind.custom s => "pub fn mut_" ++ m.unesc_name
        ++ "(&mut self) -> &mut " ++ ty ++ " \x7b " ++ s ++ " \x7d \n"
    | MethodKind.none => "")
  ++ (match m.take with
    | some s => "pub fn take_" ++ m.unesc_name ++ "(&mut self) -> " ++ ty
        ++ " \x7b " ++ s ++ " \x7d\n"
    | none => "")

/-- `generate_new` (wrapper.rs:88-104): the two construction methods
written for every message struct. -/
def generate_new (name : String) (pre : String) : String :=
  "pub fn new_() -> " ++ pre ++ name
    ++ " \x7b ::std::default::Default::default() \x7d\n"
    ++ "pub fn default_instance() -> &\x27static " ++ pre ++ name
    ++ " \x7b unimplemented!(); \x7d\n"

/-- One step of the iterator chain in `generate_one` (wrapper.rs:74-83):
an unnamed field is skipped (`filter_map` over `f.ident`), a named field
is classified (panic propagates), synthesized (panic propagates; `OneOf`
yields nothing), and rendered. `Except.ok none` means the field
contributes no text. -/
def processField (f : Field) : Except String (Option String) :=
  match f.ident with
  | none => .ok none
  | some n =>
    match FieldKind.from_attrs f.attrs with
    | .error e => .error e
    | .ok k =>
      match FieldKind.methods k f.ty n with
      | .error e => .error e
      | .ok none => .ok none
      | .ok (some m) => .ok (some (writeMethods m))

/-- The field loop of `generate_one`, threading the output buffer. -/
def processFields : List Field → String → Except String String
  | [], buf => .ok buf
  | f :: rest, buf =>
    match processField f with
    | .error e => .error e
    | .ok none => processFields rest buf
    | .ok (some s) => processFields rest (buf ++ s)

/-- `generate_one` (wrapper.rs:68-86): the `impl` header (`write!`, no
newline), the construction methods, each field's methods, and the
closing brace (`writeln!`). -/
def generate_one (item : ItemStruct) (pre : String) (buf : String) :
    Except String String :=
  let buf := buf ++ "impl " ++ pre ++ item.ident ++ " \x7b"
  let buf := buf ++ generate_new item.ident pre
  match processFields item.fields buf with
  | .error e => .error e
  | .ok buf => .ok (buf ++ "\x7d\n")

/-- `is_message` (wrapper.rs:416-426): some `derive` attribute whose
token text contains `:: prost_derive :: Message`. -/
def is_message (attrs : List Attribute) : Bool :=
  attrs.any (fun a =>
    a.path = "derive" && decide (":: prost_derive :: Message".data <:+: a.tts.data))

/-- `generate_from_items` (wrapper.rs:49-66): walk the items, generating
for every struct carrying the message derive, and recursing into inline
modules with an extended prefix. The output buffer is threaded
explicitly; a panic anywhere aborts the walk. -/
def generate_from_items : List Item → String → String → Except String String
  | [], _, buf => .ok buf
  | Item.structItem s :: rest, pre, buf =>
    if is_message s.attrs then
      match generate_one s pre buf with
      | .error e => .error e
      | .ok buf => generate_from_items rest pre buf
    else generate_from_items rest pre buf
  | Item.modItem _ none :: rest, pre, buf => generate_from_items rest pre buf
  | Item.modItem id (some content) :: rest, pre, buf =>
    match generate_from_items content (pre ++ id ++ "::") buf with
    | .error e => .error e
    | .ok buf => generate_from_items rest pre buf
  | Item.otherItem :: rest, pre, buf => generate_from_items rest pre buf

/-! ### Semantic models of the generated method bodies

The bodies emitted by `FieldKind::methods` are fixed templates; the
following functions are their meaning, used to verify the behavioural
claims about the generated accessors. -/

/-- Semantics of the `Optional` custom mutator template
(wrapper.rs:201-207): if the slot is empty, store a default-constructed
inner value; then return (a mutable reference to) the now-present inner
value. The pair is (field after the call, value referred to). -/
def mut_optional {α : Type} (dflt : α) : Option α → Option α × α
  | Option.none => (some dflt, dflt)
  | some v => (some v, v)

/-- Semantics of `::std::mem::replace(&mut self.f, fresh)` as used by the
`take_` templates for `Repeated`/`Bytes`/`String` (wrapper.rs:221-243):
the field becomes `src` and the old contents are returned. The pair is
(field after the call, returned value). -/
def mem_replace {σ : Type} (dest src : σ) : σ × σ := (src, dest)

/-- Semantics of the `Optional` take template
`self.f.take().unwrap_or_else(|| T::default())` (wrapper.rs:208-211):
the field becomes absent and the previous inner value (or a default) is
returned. -/
def take_optional {α : Type} (dflt : α) : Option α → Option α × α
  | Option.none => (none, dflt)
  | some v => (none, v)

/-- Semantics of the `Enumeration` setter template
`self.f = unsafe { transmute::<E, i32>(v) }` (wrapper.rs:248-251) at the
representation level: the argument's underlying integer representation
is stored into the 32-bit slot bit-for-bit (modelled as two's-complement
wrapping into the i32 range; no validation is performed). -/
def enum_set_body (v _stored : Int) : Int :=
  (v + 2147483648) % 4294967296 - 2147483648

/-- Semantics of the `Enumeration` getter template
`unsafe { transmute::<i32, E>(self.f) }` (wrapper.rs:252-255): the
stored integer is reinterpreted, unchanged, as the enum's
representation. -/
def enum_get_body (stored : Int) : Int := stored

/-- Semantics of the generated `clear_` body `self.f = 0` for `Int`
fields (wrapper.rs:215, rendered at wrapper.rs:329-333). -/
def clear_int_body : Int → Int := fun _ => 0

/-- Semantics of the generated `clear_` body `self.f = false` for `Bool`
fields (wrapper.rs:219, rendered at wrapper.rs:329-333). -/
def clear_bool_body : Bool → Bool := fun _ => false

/-! ### Helper lemmas -/

theorem insertionSort_head_min {l : List FieldKind} {m : FieldKind}
    {t : List FieldKind}
    (h : l.insertionSort FieldKind.fkle = m :: t) :
    m ∈ l ∧ ∀ k ∈ l, FieldKind.fkle m k := by
  have hperm := List.perm_insertionSort FieldKind.fkle l
  have hsort := List.sorted_insertionSort FieldKind.fkle l
  rw [h] at hperm hsort
  refine ⟨hperm.mem_iff.mp (List.mem_cons_self m t), ?_⟩
  intro k hk
  rcases List.mem_cons.mp (hperm.mem_iff.mpr hk) with h1 | hk2
  · cases h1
    exact FieldKind.fkle_refl _
  · exact List.rel_of_sorted_cons hsort k hk2

theorem from_attrs_prostAttr_ok {nested : List NestedMeta}
    {kinds : List FieldKind} (hc : collectKinds nested = Except.ok kinds) :
    FieldKind.from_attrs [prostAttr nested] =
      match kinds.insertionSort FieldKind.fkle with
      | [] => Except.error "Unknown field kind"
      | k :: _ => Except.ok k := by
  simp only [FieldKind.from_attrs, prostAttr, if_pos rfl, if_true, hc]

theorem from_attrs_prostAttr_error {nested : List NestedMeta}
    {e : String} (hc : collectKinds nested = Except.error e) :
    FieldKind.from_attrs [prostAttr nested] = Except.error e := by
  simp only [FieldKind.from_attrs, prostAttr, if_pos rfl, if_true, hc]

theorem trimQuotes_quoted (t : String) :
    trimQuotes ("\"" ++ t ++ "\"") = Except.ok t := by
  have h : ("\"" ++ t ++ "\"").data = '"' :: (t.data ++ ['"']) := by
    simp [String.data_append]
  have hlen : ¬ ("\"" ++ t ++ "\"").data.length < 2 := by
    rw [h]
    simp only [List.length_cons, List.length_append]
    omega
  simp [trimQuotes, if_neg hlen, h, List.dropLast_concat]

/-! ### Claims -/

/-- C1 (counterexample to the claim as stated): the annotation
`{optional, string, tag = 1}` matches two recognized keyword candidates,
but `from_attrs` does not return the least candidate `Optional` — the
wrapper.rs:149 slice `value[1..value.len() - 1]` panics on the
one-byte literal token text `1` while the candidates are still being
collected. -/
theorem c1_classify_least_candidate_counterexample :
    FieldKind.from_attrs
        [prostAttr [NestedMeta.word "optional", NestedMeta.word "string",
          NestedMeta.nameValue "tag" "1"]]
      = Except.error "byte index out of bounds"
    ∧ FieldKind.from_attrs
        [prostAttr [NestedMeta.word "optional", NestedMeta.word "string",
          NestedMeta.nameValue "tag" "1"]]
      ≠ Except.ok FieldKind.optional :=
  ⟨rfl, fun h => Except.noConfusion h⟩

/-- C1 (amended): when the tokens of a field's `prost` annotation match
two or more recognized keyword candidates *and* candidate collection
completes without panicking (no name-value literal token text shorter
than two bytes), `FieldKind::from_attrs` returns exactly the least
candidate under the derived total order `Optional < Repeated < Int <
Bool < Bytes < String < OneOf < Enumeration`; in particular
`{optional, string}` classifies as `Optional` and
`{oneof="n", enumeration="t"}` classifies as `OneOf("n")`. -/
theorem c1_classify_least_candidate :
    (∀ (nested : List NestedMeta) (kinds : List FieldKind),
        collectKinds nested = Except.ok kinds →
        2 ≤ kinds.length →
        ∃ m, FieldKind.from_attrs [prostAttr nested] = Except.ok m
          ∧ m ∈ kinds
          ∧ ∀ k ∈ kinds, FieldKind.fkle m k)
    ∧ FieldKind.from_attrs
        [prostAttr [NestedMeta.word "optional", NestedMeta.word "string"]]
        = Except.ok FieldKind.optional
    ∧ FieldKind.from_attrs
        [prostAttr [NestedMeta.nameValue "oneof" "\"n\"",
          NestedMeta.nameValue "enumeration" "\"t\""]]
        = Except.ok (FieldKind.oneOf "n") := by
  refine ⟨?_, by rfl, by rfl⟩
  intro nested kinds hc h2
  rcases hs : kinds.insertionSort FieldKind.fkle with _ | ⟨m, t⟩
  · have hl := List.length_insertionSort FieldKind.fkle kinds
    rw [hs] at hl
    simp only [List.length_nil] at hl
    omega
  · obtain ⟨hm, hmin⟩ := insertionSort_head_min hs
    refine ⟨m, ?_, hm, hmin⟩
    rw [from_attrs_prostAttr_ok hc]
    rw [hs]

theorem c1_classify_least_candidate_witness :
    ∃ m, FieldKind.from_attrs
        [prostAttr [NestedMeta.word "optional", NestedMeta.word "string"]]
        = Except.ok m
      ∧ m ∈ [FieldKind.optional, FieldKind.string]
      ∧ ∀ k ∈ [FieldKind.optional, FieldKind.string], FieldKind.fkle m k :=
  c1_classify_least_candidate.1
    [NestedMeta.word "optional", NestedMeta.word "string"]
    [FieldKind.optional, FieldKind.string] (by rfl) (by decide)

/-- C2 (counterexample to the claim as stated): the annotation
`{string, tag = 1}` contains exactly one recognized keyword token
(`string`), but `from_attrs` does not return `String` — the
wrapper.rs:149 slice panics on the one-byte literal token text `1`
before the `tag` ident is even compared. -/
theorem c2_classify_single_keyword_counterexample :
    FieldKind.from_attrs
        [prostAttr [NestedMeta.word "string", NestedMeta.nameValue "tag" "1"]]
      = Except.error "byte index out of bounds"
    ∧ FieldKind.from_attrs
        [prostAttr [NestedMeta.word "string", NestedMeta.nameValue "tag" "1"]]
      ≠ Except.ok FieldKind.string :=
  ⟨rfl, fun h => Except.noConfusion h⟩

/-- C2 (amended): a `prost` annotation whose candidate collection
completes without panicking and yields exactly one recognized keyword
token classifies as the kind matching that keyword: `optional` →
`Optional`, `repeated` → `Repeated`, `bytes` → `Bytes`, `string` →
`String`, `bool` → `Bool`, each of `int32`/`int64`/`uint32`/`uint64` →
`Int`, `enumeration="t"` → `Enumeration(t)`, `oneof="n"` → `OneOf(n)`. -/
theorem c2_classify_single_keyword :
    (∀ (nested : List NestedMeta) (k : FieldKind),
        collectKinds nested = Except.ok [k] →
        FieldKind.from_attrs [prostAttr nested] = Except.ok k)
    ∧ recognize (NestedMeta.word "optional") = Except.ok (some FieldKind.optional)
    ∧ recognize (NestedMeta.word "repeated") = Except.ok (some FieldKind.repeated)
    ∧ recognize (NestedMeta.word "bytes") = Except.ok (some FieldKind.bytes)
    ∧ recognize (NestedMeta.word "string") = Except.ok (some FieldKind.string)
    ∧ recognize (NestedMeta.word "bool") = Except.ok (some FieldKind.bool)
    ∧ recognize (NestedMeta.word "int32") = Except.ok (some FieldKind.int)
    ∧ recognize (NestedMeta.word "int64") = Except.ok (some FieldKind.int)
    ∧ recognize (NestedMeta.word "uint32") = Except.ok (some FieldKind.int)
    ∧ recognize (NestedMeta.word "uint64") = Except.ok (some FieldKind.int)
    ∧ (∀ t, recognize (NestedMeta.nameValue "enumeration" ("\"" ++ t ++ "\""))
        = Except.ok (some (FieldKind.enumeration t)))
    ∧ (∀ n, recognize (NestedMeta.nameValue "oneof" ("\"" ++ n ++ "\""))
        = Except.ok (some (FieldKind.oneOf n))) := by
  refine ⟨?_, rfl, rfl, rfl, rfl, rfl, rfl, rfl, rfl, rfl, ?_, ?_⟩
  · intro nested k h
    rw [from_attrs_prostAttr_ok h]
    simp
  · intro t
    simp [recognize, trimQuotes_quoted]
  · intro n
    simp [recognize, trimQuotes_quoted]

theorem c2_classify_single_keyword_witness :
    FieldKind.from_attrs [prostAttr [NestedMeta.word "string"]]
      = Except.ok FieldKind.string :=
  c2_classify_single_keyword.1 [NestedMeta.word "string"] FieldKind.string (by rfl)

theorem processFields_skip {f : Field} (h : processField f = Except.ok none) :
    ∀ (l1 l2 : List Field) (buf : String),
      processFields (l1 ++ f :: l2) buf = processFields (l1 ++ l2) buf
  | [], l2, buf => by
    simp only [List.nil_append, processFields, h]
  | g :: l1, l2, buf => by
    simp only [List.cons_append, processFields]
    rcases hg : processField g with e | o
    · rfl
    · rcases o with _ | s
      · exact processFields_skip h l1 l2 buf
      · exact processFields_skip h l1 l2 (buf ++ s)

/-- C3: a field classified `OneOf` yields no `FieldMethods` descriptor
(`FieldKind::methods` returns `None`), so `generate_one` emits no
accessor methods for it — the output for a struct containing a
oneof-classified field equals the output with that field removed; every
non-`OneOf` kind (with, for `Optional`, the well-formed type shape that
avoids the wrapper.rs:176-191 panics) yields a descriptor. -/
theorem c3_oneof_yields_nothing :
    (∀ (s : String) (ty : RsType) (n : String),
        FieldKind.methods (FieldKind.oneOf s) ty n = Except.ok none)
    ∧ (∀ (st : ItemStruct) (pre buf : String) (f : Field)
        (flds1 flds2 : List Field) (n s : String),
        st.fields = flds1 ++ f :: flds2 →
        f.ident = some n →
        FieldKind.from_attrs f.attrs = Except.ok (FieldKind.oneOf s) →
        generate_one st pre buf
          = generate_one { st with fields := flds1 ++ flds2 } pre buf)
    ∧ (∀ (k : FieldKind) (ty : RsType) (n : String),
        k ≠ FieldKind.optional → (∀ s, k ≠ FieldKind.oneOf s) →
        ∃ m, FieldKind.methods k ty n = Except.ok (some m))
    ∧ (∀ (ty : RsType) (n u : String), unwrapOptional ty = Except.ok u →
        ∃ m, FieldKind.methods FieldKind.optional ty n = Except.ok (some m)) := by
  refine ⟨fun _ _ _ => rfl, ?_, ?_, ?_⟩
  · intro st pre buf f flds1 flds2 n s hfields hident hattrs
    have hskip : processField f = Except.ok none := by
      simp only [processField, hident, hattrs, FieldKind.methods]
    simp only [generate_one, hfields]
    rw [processFields_skip hskip]
  · intro k ty n hopt honeof
    cases k with
    | optional => exact absurd rfl hopt
    | oneOf s => exact absurd rfl (honeof s)
    | repeated => exact ⟨_, rfl⟩
    | int => exact ⟨_, rfl⟩
    | bool => exact ⟨_, rfl⟩
    | bytes => exact ⟨_, rfl⟩
    | string => exact ⟨_, rfl⟩
    | enumeration t => exact ⟨_, rfl⟩
  · intro ty n u h
    simp only [FieldKind.methods, h]
    exact ⟨_, rfl⟩

theorem c3_oneof_yields_nothing_witness :
    generate_one
        { ident := "M", attrs := [],
          fields := [{ ident := some "v",
                       ty := RsType.other "i32",
                       attrs := [prostAttr [NestedMeta.nameValue "oneof" "\"v\""]] }] }
        "" ""
      = generate_one { ident := "M", attrs := [], fields := [] } "" "" :=
  c3_oneof_yields_nothing.2.1
    { ident := "M", attrs := [],
      fields := [{ ident := some "v",
                   ty := RsType.other "i32",
                   attrs := [prostAttr [NestedMeta.nameValue "oneof" "\"v\""]] }] }
    "" ""
    { ident := some "v", ty := RsType.other "i32",
      attrs := [prostAttr [NestedMeta.nameValue "oneof" "\"v\""]] }
    [] [] "v" "v" rfl rfl (by rfl)

/-- C4: for an `Optional` field the synthesized `mut_` body is the
wrapper.rs:201-207 template, which stores a default-constructed inner
value into the field when it is absent and then returns a mutable
reference into the field, so after any call the optional slot is
populated and the returned reference denotes its contents. -/
theorem c4_optional_mut_populates :
    (∀ (ty : RsType) (n u : String), unwrapOptional ty = Except.ok u →
        ∃ m, FieldKind.methods FieldKind.optional ty n = Except.ok (some m)
          ∧ m.mt = MethodKind.custom (optMutTemplate n u))
    ∧ (∀ (α : Type) (dflt : α) (field : Option α),
        (mut_optional dflt field).1 = some (mut_optional dflt field).2)
    ∧ (∀ (α : Type) (dflt : α),
        mut_optional dflt (none : Option α) = (some dflt, dflt))
    ∧ (∀ (α : Type) (dflt : α) (v : α),
        mut_optional dflt (some v) = (some v, v)) := by
  refine ⟨?_, ?_, fun _ _ => rfl, fun _ _ _ => rfl⟩
  · intro ty n u h
    simp only [FieldKind.methods, h]
    exact ⟨_, rfl, rfl⟩
  · intro α dflt field
    cases field <;> rfl

theorem c4_optional_mut_populates_witness :
    ∃ m, FieldKind.methods FieldKind.optional
        (RsType.path [{ ident := "Option",
                        arguments := PathArguments.angleBracketed
                          [GenericArgument.type "Foo"] }]
          "Option < Foo >") "f"
        = Except.ok (some m)
      ∧ m.mt = MethodKind.custom (optMutTemplate "f" "Foo") :=
  c4_optional_mut_populates.1
    (RsType.path [{ ident := "Option",
                    arguments := PathArguments.angleBracketed
                      [GenericArgument.type "Foo"] }]
      "Option < Foo >") "f" "Foo" (by rfl)

/-- C5: for `Repeated`, `Bytes` and `String` fields the synthesized
`take_` body is `::std::mem::replace(&mut self.f, <fresh empty value>)`
(a new `Vec` for `Repeated`/`Bytes`, a new `String` for `String`), whose
semantics swap the field against the fresh empty value: afterwards the
field is empty and the returned value is the field's pre-take
contents. -/
theorem c5_take_swaps_with_empty :
    (∀ (ty : RsType) (n : String), ∃ m,
        FieldKind.methods FieldKind.repeated ty n = Except.ok (some m)
        ∧ m.take = some ("::std::mem::replace(&mut self." ++ n
            ++ ", ::std::vec::Vec::new())"))
    ∧ (∀ (ty : RsType) (n : String), ∃ m,
        FieldKind.methods FieldKind.bytes ty n = Except.ok (some m)
        ∧ m.take = some ("::std::mem::replace(&mut self." ++ n
            ++ ", ::std::vec::Vec::new())"))
    ∧ (∀ (ty : RsType) (n : String), ∃ m,
        FieldKind.methods FieldKind.string ty n = Except.ok (some m)
        ∧ m.take = some ("::std::mem::replace(&mut self." ++ n
            ++ ", ::std::string::String::new())"))
    ∧ (∀ (α : Type) (field : List α), mem_replace field ([] : List α) = ([], field))
    ∧ (∀ field : String, mem_replace field "" = ("", field)) :=
  ⟨fun _ _ => ⟨_, rfl, rfl⟩, fun _ _ => ⟨_, rfl, rfl⟩, fun _ _ => ⟨_, rfl, rfl⟩,
    fun _ _ => rfl, fun _ => rfl⟩

/-- C6: for an `Enumeration(t)` field the synthesized `set_` stores
`unsafe { transmute::<t, i32>(v) }` and the synthesized `get_` returns
`unsafe { transmute::<i32, t>(self.f) }` (and the exposed type is
overridden to `t`), with no validation anywhere in the templates; at the
representation level, `set(v)` followed by `get()` returns `v` whenever
`v`'s underlying representation fits the stored 32-bit width. -/
theorem c6_enumeration_roundtrip :
    (∀ (ty : RsType) (n t : String), ∃ m,
        FieldKind.methods (FieldKind.enumeration t) ty n = Except.ok (some m)
        ∧ m.set = some ("unsafe \x7b ::std::mem::transmute::<" ++ t
            ++ ", i32>(v) \x7d")
        ∧ m.get = some ("unsafe \x7b ::std::mem::transmute::<i32, " ++ t
            ++ ">(self." ++ n ++ ") \x7d")
        ∧ m.override_ty = some t)
    ∧ (∀ (v stored : Int), -2147483648 ≤ v → v < 2147483648 →
        enum_get_body (enum_set_body v stored) = v) := by
  refine ⟨fun _ _ _ => ⟨_, rfl, rfl, rfl, rfl⟩, ?_⟩
  intro v stored h1 h2
  simp only [enum_get_body, enum_set_body]
  omega

theorem c6_enumeration_roundtrip_witness :
    enum_get_body (enum_set_body 5 0) = 5 :=
  c6_enumeration_roundtrip.2 5 0 (by decide) (by decide)

/-- C8: an `Int` field's descriptor carries `clear` value `0`, a `Bool`
field's carries `false` (each overwriting the stored value independently
of its prior contents), and neither kind's descriptor enables a `has_`,
`mut_` or `take_` method — the rendered block for such a field is
exactly the `clear_`/`set_`/`get_` trio. -/
theorem processFields_error {f : Field} {e : String}
    (hf : processField f = Except.error e) :
    ∀ (l : List Field) (buf : String), f ∈ l →
      ∃ e2, processFields l buf = Except.error e2
  | [], _, h => absurd h (List.not_mem_nil f)
  | g :: rest, buf, h => by
    simp only [processFields]
    rcases hg : processField g with eg | o
    · exact ⟨eg, rfl⟩
    · rcases List.mem_cons.mp h with heq | hmem
      · rw [← heq, hf] at hg
        exact Except.noConfusion hg
      · rcases o with _ | s
        · exact processFields_error hf rest buf hmem
        · exact processFields_error hf rest (buf ++ s) hmem

theorem generate_one_error {st : ItemStruct} {f : Field} {e : String}
    (hmem : f ∈ st.fields) (hf : processField f = Except.error e)
    (pre buf : String) :
    ∃ e2, generate_one st pre buf = Except.error e2 := by
  simp only [generate_one]
  obtain ⟨e2, h2⟩ := processFields_error hf st.fields
    (buf ++ "impl " ++ pre ++ st.ident ++ " \x7b" ++ generate_new st.ident pre)
    hmem
  rw [h2]
  exact ⟨e2, rfl⟩

theorem from_attrs_cons_not_prost {a : Attribute} (h : ¬ a.path = "prost")
    (rest : List Attribute) :
    FieldKind.from_attrs (a :: rest) = FieldKind.from_attrs rest := by
  simp only [FieldKind.from_attrs, if_neg h]

theorem from_attrs_cons_not_list {a : Attribute}
    (h : ∀ nested, a.parse_meta ≠ some (ParsedMeta.list nested))
    (rest : List Attribute) :
    FieldKind.from_attrs (a :: rest) = FieldKind.from_attrs rest := by
  by_cases hp : a.path = "prost"
  · rcases hm : a.parse_meta with _ | pm
    · simp only [FieldKind.from_attrs, if_pos hp, hm]
    · rcases pm with id | ⟨i, l⟩ | nested
      · simp only [FieldKind.from_attrs, if_pos hp, hm]
      · simp only [FieldKind.from_attrs, if_pos hp, hm]
      · exact absurd hm (h nested)
  · simp only [FieldKind.from_attrs, if_neg hp]

theorem from_attrs_cons_list_ok {a : Attribute} {nested : List NestedMeta}
    {kinds : List FieldKind}
    (hp : a.path = "prost")
    (hm : a.parse_meta = some (ParsedMeta.list nested))
    (hc : collectKinds nested = Except.ok kinds)
    (rest : List Attribute) :
    FieldKind.from_attrs (a :: rest) =
      match kinds.insertionSort FieldKind.fkle with
      | [] => FieldKind.from_attrs rest
      | k :: _ => Except.ok k := by
  simp only [FieldKind.from_attrs, if_pos hp, hm, hc]

theorem from_attrs_cons_list_error {a : Attribute} {nested : List NestedMeta}
    {e : String}
    (hp : a.path = "prost")
    (hm : a.parse_meta = some (ParsedMeta.list nested))
    (hc : collectKinds nested = Except.error e)
    (rest : List Attribute) :
    FieldKind.from_attrs (a :: rest) = Except.error e := by
  simp only [FieldKind.from_attrs, if_pos hp, hm, hc]

theorem from_attrs_no_prost_list : ∀ attrs : List Attribute,
    (∀ a ∈ attrs, ¬(a.path = "prost"
        ∧ ∃ nested, a.parse_meta = some (ParsedMeta.list nested))) →
    FieldKind.from_attrs attrs = Except.error "Unknown field kind"
  | [], _ => rfl
  | a :: rest, h => by
    have ha := h a (List.mem_cons_self a rest)
    have hrest := from_attrs_no_prost_list rest
      (fun a2 h2 => h a2 (List.mem_cons_of_mem a h2))
    by_cases hp : a.path = "prost"
    · have hnl : ∀ nested, a.parse_meta ≠ some (ParsedMeta.list nested) := by
        intro nested hn
        exact ha ⟨hp, nested, hn⟩
      rw [from_attrs_cons_not_list hnl rest, hrest]
    · rw [from_attrs_cons_not_prost hp rest, hrest]

theorem from_attrs_ok_requires : ∀ (attrs : List Attribute) (k : FieldKind),
    FieldKind.from_attrs attrs = Except.ok k →
    ∃ a, a ∈ attrs ∧ a.path = "prost" ∧ ∃ nested,
      a.parse_meta = some (ParsedMeta.list nested)
      ∧ ∃ kinds, collectKinds nested = Except.ok kinds ∧ kinds ≠ []
  | [], _, h => Except.noConfusion h
  | a :: rest, k, h => by
    by_cases hp : a.path = "prost"
    · rcases hm : a.parse_meta with _ | pm
      · rw [from_attrs_cons_not_list (by simp [hm]) rest] at h
        obtain ⟨a2, h1, h2⟩ := from_attrs_ok_requires rest k h
        exact ⟨a2, List.mem_cons_of_mem a h1, h2⟩
      · rcases pm with id | ⟨i, l⟩ | nested
        · rw [from_attrs_cons_not_list (by simp [hm]) rest] at h
          obtain ⟨a2, h1, h2⟩ := from_attrs_ok_requires rest k h
          exact ⟨a2, List.mem_cons_of_mem a h1, h2⟩
        · rw [from_attrs_cons_not_list (by simp [hm]) rest] at h
          obtain ⟨a2, h1, h2⟩ := from_attrs_ok_requires rest k h
          exact ⟨a2, List.mem_cons_of_mem a h1, h2⟩
        · rcases hc : collectKinds nested with e | kinds
          · rw [from_attrs_cons_list_error hp hm hc rest] at h
            exact Except.noConfusion h
          · rw [from_attrs_cons_list_ok hp hm hc rest] at h
            rcases hs : kinds.insertionSort FieldKind.fkle with _ | ⟨k2, t⟩
            · rw [hs] at h
              obtain ⟨a2, h1, h2⟩ := from_attrs_ok_requires rest k h
              exact ⟨a2, List.mem_cons_of_mem a h1, h2⟩
            · refine ⟨a, List.mem_cons_self a rest, hp, nested, hm, kinds, hc, ?_⟩
              intro hnil
              rw [hnil] at hs
              exact List.noConfusion hs
    · rw [from_attrs_cons_not_prost hp rest] at h
      obtain ⟨a2, h1, h2⟩ := from_attrs_ok_requires rest k h
      exact ⟨a2, List.mem_cons_of_mem a h1, h2⟩

/-- C7: a field classified `Optional` whose declared type is not a path
type whose last segment is `Option` carrying an angle-bracketed type
argument makes `FieldKind::methods` panic (modelled `Except.error`), and
the panic aborts generation for the whole run: `generate_one` for the
containing struct and `generate_from_items` for the containing item list
produce an error and no output. -/
theorem c7_malformed_optional_aborts :
    (∀ ty : RsType,
        (∃ u, unwrapOptional ty = Except.ok u) ↔
        (∃ segs tok seg args t, ty = RsType.path segs tok
          ∧ segs.getLast? = some seg
          ∧ seg.ident = "Option"
          ∧ seg.arguments = PathArguments.angleBracketed args
          ∧ args.head? = some (GenericArgument.type t)))
    ∧ (∀ (ty : RsType) (n : String), (∀ u, unwrapOptional ty ≠ Except.ok u) →
        ∃ e, FieldKind.methods FieldKind.optional ty n = Except.error e)
    ∧ (∀ (f : Field) (n e : String), f.ident = some n →
        FieldKind.from_attrs f.attrs = Except.ok FieldKind.optional →
        FieldKind.methods FieldKind.optional f.ty n = Except.error e →
        processField f = Except.error e)
    ∧ (∀ (st : ItemStruct) (pre buf : String) (f : Field) (e : String),
        f ∈ st.fields → processField f = Except.error e →
        ∃ e2, generate_one st pre buf = Except.error e2)
    ∧ (∀ (st : ItemStruct) (pre buf : String) (rest : List Item) (e : String),
        is_message st.attrs = true → generate_one st pre buf = Except.error e →
        generate_from_items (Item.structItem st :: rest) pre buf
          = Except.error e) := by
  refine ⟨?_, ?_, ?_, ?_, ?_⟩
  · intro ty
    constructor
    · rintro ⟨u, hu⟩
      cases ty with
      | other tk => simp [unwrapOptional] at hu
      | path segs tok =>
        rcases hl : segs.getLast? with _ | seg
        · simp [unwrapOptional, hl] at hu
        · by_cases hid : seg.ident = "Option"
          · rcases ha : seg.arguments with _ | args | _
            · simp [unwrapOptional, hl, hid, ha] at hu
            · rcases hh : args.head? with _ | arg
              · simp [unwrapOptional, hl, hid, ha, hh] at hu
              · rcases arg with t | _
                · exact ⟨segs, tok, seg, args, t, rfl, hl, hid, ha, hh⟩
                · simp [unwrapOptional, hl, hid, ha, hh] at hu
            · simp [unwrapOptional, hl, hid, ha] at hu
          · simp [unwrapOptional, hl, hid] at hu
    · rintro ⟨segs, tok, seg, args, t, rfl, hl, hid, ha, hh⟩
      exact ⟨t, by simp [unwrapOptional, hl, hid, ha, hh]⟩
  · intro ty n h
    rcases hu : unwrapOptional ty with e | u
    · exact ⟨e, by simp only [FieldKind.methods, hu]⟩
    · exact absurd hu (h u)
  · intro f n e hident hattrs hm
    simp only [processField, hident, hattrs, hm]
  · intro st pre buf f e hmem hf
    exact generate_one_error hmem hf pre buf
  · intro st pre buf rest e hmsg herr
    simp only [generate_from_items, hmsg, if_true, herr]

theorem c7_malformed_optional_aborts_witness :
    ∃ e, FieldKind.methods FieldKind.optional (RsType.other "i32") "f"
      = Except.error e :=
  c7_malformed_optional_aborts.2.1 (RsType.other "i32") "f"
    (fun u h => by simp [unwrapOptional] at h)

theorem processFields_append (l : List Field) :
    ∀ (b1 b2 : String),
      processFields l (b1 ++ b2)
        = Except.map (fun out => b1 ++ out) (processFields l b2) := by
  induction l with
  | nil => intro b1 b2; rfl
  | cons f rest ih =>
    intro b1 b2
    simp only [processFields]
    rcases hf : processField f with e | o
    · rfl
    · rcases o with _ | s
      · exact ih b1 b2
      · show processFields rest (b1 ++ b2 ++ s)
            = Except.map (fun out => b1 ++ out) (processFields rest (b2 ++ s))
        rw [String.append_assoc]
        exact ih b1 (b2 ++ s)

theorem generate_one_append (st : ItemStruct) (pre b1 b2 : String) :
    generate_one st pre (b1 ++ b2)
      = Except.map (fun out => b1 ++ out) (generate_one st pre b2) := by
  simp only [generate_one]
  rw [show b1 ++ b2 ++ "impl " ++ pre ++ st.ident ++ " \x7b"
        ++ generate_new st.ident pre
      = b1 ++ (b2 ++ "impl " ++ pre ++ st.ident ++ " \x7b"
        ++ generate_new st.ident pre) from by simp [String.append_assoc]]
  rw [processFields_append st.fields b1
    (b2 ++ "impl " ++ pre ++ st.ident ++ " \x7b" ++ generate_new st.ident pre)]
  rcases h : processFields st.fields
      (b2 ++ "impl " ++ pre ++ st.ident ++ " \x7b" ++ generate_new st.ident pre)
    with e | w
  · rfl
  · simp only [Except.map]
    rw [String.append_assoc]

theorem generate_from_items_append :
    ∀ (items : List Item) (pre b1 b2 : String),
      generate_from_items items pre (b1 ++ b2)
        = Except.map (fun out => b1 ++ out) (generate_from_items items pre b2)
  | [], _, _, _ => by simp [generate_from_items, Except.map]
  | Item.structItem s :: rest, pre, b1, b2 => by
    simp only [generate_from_items]
    by_cases hm : is_message s.attrs
    · rw [if_pos hm, if_pos hm, generate_one_append s pre b1 b2]
      rcases h : generate_one s pre b2 with e | w
      · rfl
      · simp only [Except.map]
        exact generate_from_items_append rest pre b1 w
    · rw [if_neg hm, if_neg hm]
      exact generate_from_items_append rest pre b1 b2
  | Item.modItem id none :: rest, pre, b1, b2 => by
    simp only [generate_from_items]
    exact generate_from_items_append rest pre b1 b2
  | Item.modItem id (some content) :: rest, pre, b1, b2 => by
    simp only [generate_from_items]
    rw [generate_from_items_append content (pre ++ id ++ "::") b1 b2]
    rcases h : generate_from_items content (pre ++ id ++ "::") b2 with e | w
    · rfl
    · simp only [Except.map]
      exact generate_from_items_append rest pre b1 w
  | Item.otherItem :: rest, pre, b1, b2 => by
    simp only [generate_from_items]
    exact generate_from_items_append rest pre b1 b2

/-- C9: generation is deterministic and free of hidden state: the text
written by `generate_from_items` is a pure function of the parsed input
tree (and namespace prefix) alone — whatever the prior contents of the
output buffer, the run appends exactly the text of a run over an empty
buffer — so two runs over identical input trees emit byte-identical
output. -/
theorem c9_generation_deterministic :
    (∀ (items : List Item) (pre buf : String),
        generate_from_items items pre buf
          = Except.map (fun out => buf ++ out)
              (generate_from_items items pre ""))
    ∧ (∀ (items : List Item) (pre : String) (r1 r2 : Except String String),
        generate_from_items items pre "" = r1 →
        generate_from_items items pre "" = r2 → r1 = r2) := by
  constructor
  · intro items pre buf
    have h := generate_from_items_append items pre buf ""
    rwa [String.append_empty] at h
  · intro items pre r1 r2 h1 h2
    rw [← h1, ← h2]

theorem c9_generation_deterministic_witness :
    (Except.ok "" : Except String String) = Except.ok "" :=
  c9_generation_deterministic.2 [] "" (Except.ok "") (Except.ok "")
    (by simp [generate_from_items]) (by simp [generate_from_items])

/-- C10: classification fails fatally (aborting the run) for every
named field with no `prost` attribute at all, and for every named field
none of whose `prost` attributes parse as a meta list — not only for
fields whose wire-metadata tokens are all unrecognized — and
classification can only succeed when some `prost` meta list yields at
least one recognized token; a field whose classification fails makes
`generate_one` for its struct fail. -/
theorem c10_classification_requires_token :
    (∀ attrs : List Attribute,
        (∀ a ∈ attrs, ¬(a.path = "prost"
            ∧ ∃ nested, a.parse_meta = some (ParsedMeta.list nested))) →
        FieldKind.from_attrs attrs = Except.error "Unknown field kind")
    ∧ (FieldKind.from_attrs [] = Except.error "Unknown field kind")
    ∧ (∀ (attrs : List Attribute) (k : FieldKind),
        FieldKind.from_attrs attrs = Except.ok k →
        ∃ a, a ∈ attrs ∧ a.path = "prost" ∧ ∃ nested,
          a.parse_meta = some (ParsedMeta.list nested)
          ∧ ∃ kinds, collectKinds nested = Except.ok kinds ∧ kinds ≠ [])
    ∧ (∀ (st : ItemStruct) (pre buf : String) (f : Field) (n e : String),
        f ∈ st.fields → f.ident = some n →
        FieldKind.from_attrs f.attrs = Except.error e →
        ∃ e2, generate_one st pre buf = Except.error e2) := by
  refine ⟨from_attrs_no_prost_list, rfl, from_attrs_ok_requires, ?_⟩
  intro st pre buf f n e hmem hident hattr
  have hf : processField f = Except.error e := by
    simp only [processField, hident, hattr]
  exact generate_one_error hmem hf pre buf

theorem c10_classification_requires_token_witness :
    ∃ e2, generate_one
        { ident := "M", attrs := [],
          fields := [{ ident := some "x", ty := RsType.other "i32",
                       attrs := [] }] }
        "" "" = Except.error e2 :=
  c10_classification_requires_token.2.2.2
    { ident := "M", attrs := [],
      fields := [{ ident := some "x", ty := RsType.other "i32", attrs := [] }] }
    "" ""
    { ident := some "x", ty := RsType.other "i32", attrs := [] }
    "x" "Unknown field kind"
    (by simp) rfl rfl

theorem c8_int_bool_clear :
    (∀ (ty : RsType) (n : String),
        FieldKind.methods FieldKind.int ty n = Except.ok (some
          { ty := ty.tokens, ref_ty := RefType.copy, override_ty := none,
            name := n,
            unesc_name := if n.startsWith "r#" then n.drop 2 else n,
            has := false, clear := some "0", set := none, get := none,
            mt := MethodKind.none, take := none }))
    ∧ (∀ (ty : RsType) (n : String),
        FieldKind.methods FieldKind.bool ty n = Except.ok (some
          { ty := ty.tokens, ref_ty := RefType.copy, override_ty := none,
            name := n,
            unesc_name := if n.startsWith "r#" then n.drop 2 else n,
            has := false, clear := some "false", set := none, get := none,
            mt := MethodKind.none, take := none }))
    ∧ (∀ x : Int, clear_int_body x = 0)
    ∧ (∀ b : Bool, clear_bool_body b = false)
    ∧ ((FieldKind.methods FieldKind.int (RsType.other "i32") "x").map
          (Option.map writeMethods)
        = Except.ok (some (
          "pub fn clear_x(&mut self) \x7b self.x = 0 \x7d\n"
          ++ "pub fn set_x(&mut self, v: i32) \x7b self.x = v; \x7d\n"
          ++ "pub fn get_x(&self) -> i32 \x7b self.x \x7d\n")))
    ∧ ((FieldKind.methods FieldKind.bool (RsType.other "bool") "b").map
          (Option.map writeMethods)
        = Except.ok (some (
          "pub fn clear_b(&mut self) \x7b self.b = false \x7d\n"
          ++ "pub fn set_b(&mut self, v: bool) \x7b self.b = v; \x7d\n"
          ++ "pub fn get_b(&self) -> bool \x7b self.b \x7d\n"))) :=
  ⟨fun _ _ => rfl, fun _ _ => rfl, fun _ => rfl, fun _ => rfl, rfl, rfl⟩

end Wrapper
